import Mathlib

/-!
Verification of the graft client volume store
(`src/crates/graft-client/src/runtime/storage.rs`).

The embedding models the per-volume contents of the three fjall partitions
(`volumes`, `pages`, `commits`) together with the two change-notification
channels. Every key in every partition is prefixed by the 16-byte VolumeId
and every operation of `Storage` touches only keys of the volume it is given,
so a single-volume state is a faithful projection. All operations hold the
store-wide commit lock for their whole read+write critical section, hence
they are modelled as sequential state transformers.

Helper modules of the repository that are not present under `src/`
(`graft-core/src/lsn.rs`, `page.rs`, `page_count.rs`, and the storage
submodules `snapshot.rs`, `volume_state.rs`, `page.rs`, `commit.rs`,
`memtable.rs`) are modelled from the spec; each such definition carries a
doc comment saying so. Everything else is translated from `storage.rs`.
-/

namespace Graft

/-- Modelled from the spec: `graft-core/src/lsn.rs` is absent from src.
An LSN is a 1-indexed monotonic u64; 0 is reserved to mean "no snapshot"
and is never a valid key component. We model LSNs as `Nat` (overflow of
`LSN::next` aborts the process in the source and cannot occur on `Nat`). -/
abbrev LSN := Nat

/-- Modelled from the spec: page contents are opaque 4 KiB blobs; the claims
only ever compare them for identity, so a page is modelled as a `Nat`
(the test pages `P(k)` are "filled with byte k"). -/
abbrev Page := Nat

/-- Rust's derived `Ord` on `Option<LSN>`: `None` is below every `Some`.
Used by the source via `latest > last_sync`-style comparisons. -/
def optLT : Option Nat → Option Nat → Bool
  | none, some _ => true
  | some a, some b => decide (a < b)
  | _, none => false

/-- Comparison `a ≤ b` demanded only where both optional values are present
(used to state the watermark chain invariant). -/
def leOpt : Option Nat → Option Nat → Bool
  | some a, some b => decide (a ≤ b)
  | _, _ => true

/-- Modelled from the spec: `snapshot.rs` is absent from src. A volume
snapshot is `{local_lsn: u64, remote_lsn: Option<u64>, pages: u32}`;
accessors `local()`, `remote()`, `pages()` are the record projections. -/
structure Snapshot where
  localLsn : LSN
  remoteLsn : Option LSN
  pages : Nat
deriving DecidableEq, Repr

/-- Modelled from the spec: `volume_state.rs` is absent from src. Watermarks
are `{last_sync: Option<LSN>, pending_sync: Option<LSN>}` with both fields
defaulting to `None`. -/
structure Watermarks where
  lastSync : Option LSN
  pendingSync : Option LSN
deriving DecidableEq, Repr

/-- Modelled from the spec: builder used by the remote-apply path. -/
def Watermarks.withLastSync (w : Watermarks) (l : LSN) : Watermarks :=
  { w with lastSync := some l }

/-- Modelled from the spec: builder used by the remote-apply and
sync-prepare paths. -/
def Watermarks.withPendingSync (w : Watermarks) (l : LSN) : Watermarks :=
  { w with pendingSync := some l }

/-- Modelled from the spec: rollback sets `pending_sync = last_sync`. -/
def Watermarks.rollbackPendingSync (w : Watermarks) : Watermarks :=
  { w with pendingSync := w.lastSync }

/-- Modelled from the spec: completing a push moves `pending_sync` into
`last_sync` and clears `pending_sync`. -/
def Watermarks.commitPendingSync (w : Watermarks) : Watermarks :=
  ⟨w.pendingSync, none⟩

/-- Modelled from the spec: `volume_state.rs` is absent from src.
Volume status enum; the default (no persisted row) is `ok`. -/
inductive VolumeStatus
  | ok
  | conflict
  | rejectedCommit
deriving DecidableEq, Repr

/-- Modelled from the spec: `page.rs` is absent from src. A stored page value
is either the page blob (`available`) or the single-byte `pending` marker;
`empty` is the third state of the sum, produced (per the spec) only by the
read path and never stored. Length of the stored bytes disambiguates, so
the typed model needs no parse step. -/
inductive PageValue
  | pending
  | empty
  | available (page : Page)
deriving DecidableEq, Repr

/-- The remote snapshot descriptor received from the metastore
(`graft_proto::Snapshot`): a remote LSN and a page count. The source
validates `lsn()` (a proto u64) into an `LSN`, aborting on 0; callers in
the claims always pass valid descriptors. -/
structure RemoteSnapshot where
  lsn : LSN
  pages : Nat
deriving DecidableEq, Repr

/-- Modelled from the spec: `memtable.rs` is absent from src. A memtable is
a map from page offset to page built inside a write transaction; it is
iterated as an ascending, duplicate-free list of `(offset, page)` pairs. -/
abbrev Memtable := List (Nat × Page)

/-- Errors surfaced by the modelled operations. The corrupt-record and
substrate errors of `StorageErr` cannot occur in the typed model;
`assertFailed` models an `assert!`/`expect` abort inside a critical
section (the process dies before any batch is committed, so the state is
unchanged). -/
inductive RErr
  | concurrentWrite
  | volumeNeedsRecovery
  | remoteConflict
  | assertFailed
deriving DecidableEq, Repr

/-- One entry of the `pages` partition: key `(offset, lsn)` (the VolumeId
prefix is implicit in the single-volume model) and the stored value. -/
abbrev PageEntry := (Nat × Nat) × PageValue

/-- Per-volume projection of `Storage`: the three rows of the `volumes`
partition belonging to this volume, the `pages` and `commits` partitions
restricted to this volume's key prefix, and the two change-set publication
counters. Partitions are association lists where the head entry for a key
shadows older ones (an insert conses in front), matching last-write-wins
of the KV store. A commit value is the splinter bitmap of changed offsets,
modelled as the list of offsets it contains. -/
structure Storage where
  snapshot : Option Snapshot
  watermarks : Option Watermarks
  status : Option VolumeStatus
  pages : List PageEntry
  commits : List (Nat × List Nat)
  localNotifies : Nat
  remoteNotifies : Nat
deriving DecidableEq, Repr

/-- A freshly opened store: no rows at all for this volume. -/
def Storage.init : Storage :=
  { snapshot := none, watermarks := none, status := none, pages := [],
    commits := [], localNotifies := 0, remoteNotifies := 0 }

/-- Point lookup in the pages partition at key `(offset, lsn)`. -/
def pfind (ps : List PageEntry) (offset lsn : Nat) : Option PageValue :=
  (ps.find? (fun e => decide (e.1 = (offset, lsn)))).map Prod.snd

/-- `pages.get(PageKey::new(vid, offset, lsn))`. -/
def pget (st : Storage) (offset lsn : Nat) : Option PageValue :=
  pfind st.pages offset lsn

/-- Point lookup in the commits partition at key `lsn`. -/
def cfind (cs : List (Nat × List Nat)) (lsn : Nat) : Option (List Nat) :=
  (cs.find? (fun e => decide (e.1 = lsn))).map Prod.snd

/-- `commits.get(CommitKey::new(vid, lsn))`. -/
def cget (st : Storage) (lsn : Nat) : Option (List Nat) :=
  cfind st.commits lsn

/-- `batch.remove(&self.commits, CommitKey::new(vid, lsn))`: removing a key
from an ordered map drops every entry at that key. -/
def cremove (cs : List (Nat × List Nat)) (lsn : Nat) : List (Nat × List Nat) :=
  cs.filter (fun e => !(decide (e.1 = lsn)))

/-- The inclusive LSN range `lo..=hi` as iterated by `LSNRangeExt::iter`
(empty when `lo > hi`). -/
def lsnRange (lo hi : Nat) : List Nat :=
  (List.range (hi + 1 - lo)).map (· + lo)

/-- Insert a batch of page entries, all at the same `lsn`, one per element
of `xs`; `f` gives each element's offset and stored value. Used by the
local-commit loop (`available` values from the memtable) and the
remote-apply loop (`pending` markers at the changed offsets). -/
def pinsEntries (lsn : Nat) (f : α → Nat × PageValue) (xs : List α)
    (ps : List PageEntry) : List PageEntry :=
  xs.foldl (fun ps x => (((f x).1, lsn), (f x).2) :: ps) ps

/-- `VolumeState::watermarks()`: the persisted row, defaulting to
`Watermarks::default()` when the row is absent. -/
def wgetD (st : Storage) : Watermarks :=
  st.watermarks.getD ⟨none, none⟩

/-- `Storage::get_volume_status`: the persisted status row, defaulting to
`VolumeStatus::Ok` when no row was ever written. -/
def getVolumeStatus (st : Storage) : VolumeStatus :=
  st.status.getD VolumeStatus.ok

/-- Modelled from the spec: `VolumeState::has_pending_commits` lives in the
absent `volume_state.rs`; the spec defines it as
`local_lsn > last_sync` under Rust's `Option` ordering. -/
def hasPendingCommits (st : Storage) : Bool :=
  optLT (wgetD st).lastSync (st.snapshot.map (fun s => s.localLsn))

/-- Modelled from the spec: `VolumeState::needs_recovery` lives in the
absent `volume_state.rs`; the spec defines it as
`pending_sync > last_sync ∧ status ≠ Ok`. -/
def needsRecovery (st : Storage) : Bool :=
  optLT (wgetD st).lastSync (wgetD st).pendingSync &&
    decide (getVolumeStatus st ≠ VolumeStatus.ok)

/-- The range scan `PageKey(vid, offset, FIRST)..=PageKey(vid, offset, n)`
followed by `next_back()`: the largest `lsn ∈ [1, n]` holding a page at
this offset, together with its value. Scans downward from `n`; never
consults lsn 0 (`LSN::FIRST = 1`). -/
def readLoop (st : Storage) (offset : Nat) : Nat → Option (Nat × PageValue)
  | 0 => none
  | n + 1 =>
    match pget st offset (n + 1) with
    | some v => some (n + 1, v)
    | none => readLoop st offset n

/-- `Storage::read`: most recent page value at or below `lsn`; when the
range scan finds nothing the source returns `(lsn, PageValue::Pending)`. -/
def read (st : Storage) (lsn : Nat) (offset : Nat) : Nat × PageValue :=
  (readLoop st offset lsn).getD (lsn, PageValue.pending)

/-- Page count contributed by a memtable: the source folds
`pages = pages.max(offset.pages())` with `offset.pages() = offset + 1`. -/
def mtPages (mt : Memtable) : Nat :=
  mt.foldl (fun acc e => max acc (e.1 + 1)) 0

/-- `Storage::commit`: build the batch (memtable pages at `commit_lsn`, the
new snapshot row, the commit record listing the touched offsets), then
under the commit lock re-check that the read snapshot is still the latest
local snapshot; on mismatch fail with `ConcurrentWrite` leaving every
partition untouched, otherwise apply the batch atomically and publish on
the local change set. -/
def commit (st : Storage) (snapshot : Option Snapshot) (memtable : Memtable) :
    Except RErr Snapshot × Storage :=
  let readLsn := snapshot.map (fun s => s.localLsn)
  let remoteLsn := snapshot.bind (fun s => s.remoteLsn)
  let pages0 := (snapshot.map (fun s => s.pages)).getD 0
  let commitLsn := (readLsn.map (· + 1)).getD 1
  let pages := memtable.foldl (fun acc e => max acc (e.1 + 1)) pages0
  let offsets := memtable.map Prod.fst
  if st.snapshot.map (fun s => s.localLsn) ≠ readLsn then
    (Except.error RErr.concurrentWrite, st)
  else
    let snap : Snapshot := ⟨commitLsn, remoteLsn, pages⟩
    (Except.ok snap,
      { st with
        pages := pinsEntries commitLsn
          (fun e => (e.1, PageValue.available e.2)) memtable st.pages
        snapshot := some snap
        commits := (commitLsn, offsets) :: st.commits
        localNotifies := st.localNotifies + 1 })

/-- `Storage::receive_remote_commit_holding_lock`: refuse when the volume
needs recovery; on pending local commits persist `status = Conflict`
(a direct partition insert, outside the batch) and fail with
`RemoteConflict`; otherwise atomically write the new snapshot at the next
local LSN, fast-forward both watermarks to it, insert a `Pending` page at
every changed offset, and publish on the remote change set. -/
def receiveRemoteHL (st : Storage) (remote : RemoteSnapshot)
    (changed : List Nat) : Except RErr Unit × Storage :=
  if needsRecovery st then
    (Except.error RErr.volumeNeedsRecovery, st)
  else if hasPendingCommits st then
    (Except.error RErr.remoteConflict, { st with status := some VolumeStatus.conflict })
  else
    let localLsn := (st.snapshot.map (fun s => s.localLsn + 1)).getD 1
    (Except.ok (),
      { st with
        snapshot := some ⟨localLsn, some remote.lsn, remote.pages⟩
        watermarks := some
          (((wgetD st).withLastSync localLsn).withPendingSync localLsn)
        pages := pinsEntries localLsn (fun o => (o, PageValue.pending)) changed st.pages
        remoteNotifies := st.remoteNotifies + 1 })

/-- `Storage::receive_remote_commit`: take the commit lock and delegate. -/
def receiveRemoteCommit (st : Storage) (remote : RemoteSnapshot)
    (changed : List Nat) : Except RErr Unit × Storage :=
  receiveRemoteHL st remote changed

/-- `Storage::receive_pages`: write fetched pages at a given LSN. -/
def receivePages (st : Storage) (lsn : Nat) (pages : List (Nat × Page)) : Storage :=
  { st with
    pages := pinsEntries lsn (fun e => (e.1, PageValue.available e.2)) pages st.pages }

/-- `Storage::prepare_sync_to_remote`: under the lock, fail when the volume
needs recovery; abort when the snapshot row is missing (`expect "volume
snapshot missing"`; the `has_pending_commits` check is only a
debug assertion); otherwise persist `pending_sync = local_lsn` and return
the snapshot together with the inclusive range `last_sync+1 ..= local_lsn`
(starting at 1 when `last_sync` is `None`). The returned commit iterator
is lazy and checks contiguity as the caller consumes it; it performs no
writes, so it has no state effect here. -/
def prepareSyncToRemote (st : Storage) :
    Except RErr (Snapshot × Nat × Nat) × Storage :=
  if needsRecovery st then
    (Except.error RErr.volumeNeedsRecovery, st)
  else
    match st.snapshot with
    | none => (Except.error RErr.assertFailed, st)
    | some snap =>
      let start := ((wgetD st).lastSync.map (· + 1)).getD 1
      (Except.ok (snap, start, snap.localLsn),
        { st with watermarks := some ((wgetD st).withPendingSync snap.localLsn) })

/-- `Storage::complete_sync_to_remote`: under the lock, abort when the
snapshot row is missing, when the new remote LSN is not strictly above
the current one (`assert!(snapshot.remote() < Some(remote_lsn))`), or
when `pending_sync` differs from the sync-start snapshot's local LSN;
otherwise atomically rewrite the snapshot with the new remote LSN
(local LSN and page count unchanged), move `pending_sync` into
`last_sync`, and remove every commit key in the synced range. -/
def completeSyncToRemote (st : Storage) (syncStart : Snapshot)
    (remote : RemoteSnapshot) (lo hi : Nat) : Except RErr Unit × Storage :=
  match st.snapshot with
  | none => (Except.error RErr.assertFailed, st)
  | some snap =>
    if !(optLT snap.remoteLsn (some remote.lsn)) then
      (Except.error RErr.assertFailed, st)
    else if (wgetD st).pendingSync ≠ some syncStart.localLsn then
      (Except.error RErr.assertFailed, st)
    else
      (Except.ok (),
        { st with
          snapshot := some ⟨snap.localLsn, some remote.lsn, snap.pages⟩
          watermarks := some ((wgetD st).commitPendingSync)
          commits := (lsnRange lo hi).foldl cremove st.commits })

/-- `Storage::rollback_sync_to_remote`: under the lock, set
`pending_sync = last_sync` (reading the row with a default when absent);
when the error is a server-side commit rejection additionally persist
`status = RejectedCommit`. -/
def rollbackSyncToRemote (st : Storage) (commitRejected : Bool) : Storage :=
  let st' := { st with watermarks := some ((wgetD st).rollbackPendingSync) }
  if commitRejected then { st' with status := some VolumeStatus.rejectedCommit } else st'

/-- `Storage::reset_volume_to_remote`: under the lock, when
`last_sync = local_lsn` simply receive the remote commit; otherwise abort
unless `last_sync < local_lsn`, and abort if the commit scan meets a
commit at or below `last_sync`. The source then builds a batch (reset or
remove the snapshot row, clear the status row, roll back `pending_sync`,
remove every commit above `last_sync` and the page keys in its bitmap)
but drops that batch without ever calling `batch.commit()`, so the batch
has no effect; it then calls `receive_remote_commit_holding_lock` on the
unchanged state. -/
def resetVolumeToRemote (st : Storage) (remote : RemoteSnapshot)
    (changed : List Nat) : Except RErr Unit × Storage :=
  let localLsn := st.snapshot.map (fun s => s.localLsn)
  let targetLsn := (wgetD st).lastSync
  if targetLsn = localLsn then
    receiveRemoteHL st remote changed
  else if !(optLT targetLsn localLsn) then
    (Except.error RErr.assertFailed, st)
  else if st.commits.any (fun e => !(optLT targetLsn (some e.1))) then
    (Except.error RErr.assertFailed, st)
  else
    receiveRemoteHL st remote changed

/-- One invocation of a read-then-write storage operation, for stating
reachability: the six operations of the sync and commit machinery. -/
inductive Op
  | commitOp (snapshot : Option Snapshot) (memtable : Memtable)
  | receiveRemoteOp (remote : RemoteSnapshot) (changed : List Nat)
  | prepareSyncOp
  | completeSyncOp (syncStart : Snapshot) (remote : RemoteSnapshot) (lo hi : Nat)
  | rollbackSyncOp (commitRejected : Bool)
  | resetOp (remote : RemoteSnapshot) (changed : List Nat)

/-- Resulting state of one operation (errors leave the recorded state). -/
def applyOp (st : Storage) : Op → Storage
  | Op.commitOp snap mt => (commit st snap mt).2
  | Op.receiveRemoteOp r c => (receiveRemoteCommit st r c).2
  | Op.prepareSyncOp => (prepareSyncToRemote st).2
  | Op.completeSyncOp s r lo hi => (completeSyncToRemote st s r lo hi).2
  | Op.rollbackSyncOp b => rollbackSyncToRemote st b
  | Op.resetOp r c => (resetVolumeToRemote st r c).2

/-- Run a sequence of operations from a state. -/
def run (st : Storage) (ops : List Op) : Storage :=
  ops.foldl applyOp st

/-- The watermark chain `last_sync ≤ pending_sync ≤ local_lsn`, each
inequality demanded where both optional values are present. -/
def wmChain (st : Storage) : Bool :=
  leOpt (wgetD st).lastSync (wgetD st).pendingSync &&
  leOpt (wgetD st).pendingSync (st.snapshot.map (fun s => s.localLsn)) &&
  leOpt (wgetD st).lastSync (st.snapshot.map (fun s => s.localLsn))

/-- Strengthened invariant for the induction: the chain, plus the fact that
a present watermark implies a present snapshot. -/
def wmOK (st : Storage) : Bool :=
  wmChain st &&
  (!((wgetD st).lastSync.isSome || (wgetD st).pendingSync.isSome) ||
    st.snapshot.isSome)

/-- The state after scenario S1 + S4 of the spec: two local commits
(LSN 1 writes offset 0, LSN 2 writes offsets 0 and 1), nothing synced yet
(`last_sync = None < local_lsn = Some 2`). -/
def stDiverged : Storage :=
  { snapshot := some ⟨2, none, 2⟩, watermarks := none, status := none,
    pages := [((1, 2), PageValue.available 3), ((0, 2), PageValue.available 2),
      ((0, 1), PageValue.available 1)],
    commits := [(2, [0, 1]), (1, [0])], localNotifies := 2, remoteNotifies := 0 }

/-- A volume whose snapshot already records remote LSN 5, with a push of
local LSN 2 in flight (`pending_sync = Some 2`). -/
def stSyncCex : Storage :=
  { snapshot := some ⟨2, some 5, 1⟩, watermarks := some ⟨none, some 2⟩,
    status := none, pages := [], commits := [], localNotifies := 0,
    remoteNotifies := 0 }

/-- A volume holding a page at (offset 0, LSN 1) and a pending marker at
(offset 0, LSN 2). -/
def stPair : Storage :=
  { snapshot := some ⟨2, none, 1⟩, watermarks := none, status := none,
    pages := [((0, 1), PageValue.available 7), ((0, 2), PageValue.pending)],
    commits := [], localNotifies := 0, remoteNotifies := 0 }

/-- A volume holding a single page at offset 1, LSN 2 (offset 0 untouched). -/
def stOther : Storage :=
  { snapshot := some ⟨2, none, 2⟩, watermarks := none, status := none,
    pages := [((1, 2), PageValue.available 5)], commits := [],
    localNotifies := 0, remoteNotifies := 0 }

/-- A volume with one unsynced local commit at LSN 1. -/
def stPending : Storage :=
  { snapshot := some ⟨1, none, 1⟩, watermarks := none, status := none,
    pages := [((0, 1), PageValue.available 1)], commits := [(1, [0])],
    localNotifies := 1, remoteNotifies := 0 }

/-- A volume ready to complete a push: local LSN 2 pushed while
`pending_sync = Some 2`, remote previously at LSN 4. -/
def stSyncOk : Storage :=
  { snapshot := some ⟨2, some 4, 2⟩, watermarks := some ⟨none, some 2⟩,
    status := none, pages := [], commits := [(2, [0, 1]), (1, [0])],
    localNotifies := 2, remoteNotifies := 0 }

section Lemmas

/-- Lookup hits the head entry of the pages partition. -/
theorem pfind_cons_self (o l : Nat) (v : PageValue) (ps : List PageEntry) :
    pfind (((o, l), v) :: ps) o l = some v := by
  simp [pfind, List.find?_cons]

/-- Lookup skips a head entry with a different key. -/
theorem pfind_cons_ne (k : Nat × Nat) (v : PageValue) (ps : List PageEntry)
    (o l : Nat) (h : ¬(k = (o, l))) :
    pfind ((k, v) :: ps) o l = pfind ps o l := by
  simp [pfind, List.find?_cons, h]

theorem pinsEntries_cons (lsn : Nat) (f : α → Nat × PageValue) (x : α)
    (xs : List α) (ps : List PageEntry) :
    pinsEntries lsn f (x :: xs) ps =
      pinsEntries lsn f xs ((((f x).1, lsn), (f x).2) :: ps) := rfl

/-- A batch of inserts at offsets other than `o` does not affect lookups at
offset `o`. -/
theorem pfind_pinsEntries_not_mem (lsn : Nat) (f : α → Nat × PageValue)
    (xs : List α) (ps : List PageEntry) (o l : Nat)
    (h : ∀ x ∈ xs, (f x).1 ≠ o) :
    pfind (pinsEntries lsn f xs ps) o l = pfind ps o l := by
  induction xs generalizing ps with
  | nil => rfl
  | cons x xs ih =>
    rw [pinsEntries_cons]
    rw [ih _ (fun y hy => h y (List.mem_cons_of_mem _ hy))]
    refine pfind_cons_ne _ _ _ _ _ ?_
    intro he
    rw [Prod.mk.injEq] at he
    exact h x (List.mem_cons_self x xs) he.1

/-- With duplicate-free keys, each inserted entry is found afterwards. -/
theorem pfind_pinsEntries_mem_nodup (lsn : Nat) (f : α → Nat × PageValue)
    (xs : List α) (ps : List PageEntry)
    (hnd : (xs.map (fun x => (f x).1)).Nodup) (x : α) (hx : x ∈ xs) :
    pfind (pinsEntries lsn f xs ps) (f x).1 lsn = some (f x).2 := by
  induction xs generalizing ps with
  | nil => cases hx
  | cons y ys ih =>
    rw [pinsEntries_cons]
    rcases List.mem_cons.mp hx with rfl | hmem
    · have hhd : (f x).1 ∉ ys.map (fun z => (f z).1) := (List.nodup_cons.mp hnd).1
      have hnot : ∀ z ∈ ys, (f z).1 ≠ (f x).1 := by
        intro z hz he
        exact hhd (he ▸ List.mem_map_of_mem _ hz)
      rw [pfind_pinsEntries_not_mem _ _ _ _ _ _ hnot]
      exact pfind_cons_self _ _ _ _
    · exact ih _ (List.nodup_cons.mp hnd).2 hmem

/-- When every inserted value is the constant `c`, any inserted offset reads
back as `c` (duplicates allowed). -/
theorem pfind_pinsEntries_mem_const (lsn : Nat) (f : α → Nat × PageValue)
    (xs : List α) (ps : List PageEntry) (c : PageValue)
    (hc : ∀ x ∈ xs, (f x).2 = c) (o : Nat) (ho : ∃ x ∈ xs, (f x).1 = o) :
    pfind (pinsEntries lsn f xs ps) o lsn = some c := by
  induction xs generalizing ps with
  | nil => rcases ho with ⟨x, hx, _⟩; cases hx
  | cons y ys ih =>
    rw [pinsEntries_cons]
    by_cases hmem : ∃ x ∈ ys, (f x).1 = o
    · exact ih _ (fun x hx => hc x (List.mem_cons_of_mem _ hx)) hmem
    · have hoy : (f y).1 = o := by
        rcases ho with ⟨x, hx, hxo⟩
        rcases List.mem_cons.mp hx with rfl | hxm
        · exact hxo
        · exact absurd ⟨x, hxm, hxo⟩ hmem
      have hnot : ∀ z ∈ ys, (f z).1 ≠ o := fun z hz he => hmem ⟨z, hz, he⟩
      rw [pfind_pinsEntries_not_mem _ _ _ _ _ _ hnot, hoy,
        hc y (List.mem_cons_self y ys)]
      exact pfind_cons_self _ _ _ _

/-- The downward scan finds nothing when no key in `[1, n]` is present. -/
theorem readLoop_eq_none (st : Storage) (o : Nat) :
    ∀ n, (∀ l, l ≤ n → 1 ≤ l → pget st o l = none) → readLoop st o n = none := by
  intro n
  induction n with
  | zero => intro _; rfl
  | succ m ih =>
    intro h
    have hm : pget st o (m + 1) = none := h (m + 1) (Nat.le_refl _) (by omega)
    simp only [readLoop, hm]
    exact ih (fun l hl h1 => h l (by omega) h1)

/-- The downward scan returns the largest present key at or below `n`. -/
theorem readLoop_eq_some (st : Storage) (o l : Nat) (v : PageValue)
    (h1 : 1 ≤ l) :
    ∀ n, l ≤ n → pget st o l = some v →
      (∀ m, m ≤ n → l < m → pget st o m = none) →
      readLoop st o n = some (l, v) := by
  intro n
  induction n with
  | zero => intro h; omega
  | succ m ih =>
    intro hln hv hnone
    by_cases hc : l = m + 1
    · subst hc
      simp only [readLoop, hv]
    · have hm : pget st o (m + 1) = none := hnone (m + 1) (Nat.le_refl _) (by omega)
      simp only [readLoop, hm]
      exact ih (by omega) hv (fun k hk hlk => hnone k (by omega) hlk)

/-- Folding `max` from an arbitrary accumulator equals `max` of the
accumulator with the fold from zero. -/
theorem foldl_max_eq : ∀ (mt : Memtable) (a : Nat),
    mt.foldl (fun acc e => max acc (e.1 + 1)) a = max a (mtPages mt)
  | [], a => by simp [mtPages]
  | e :: es, a => by
    have h1 := foldl_max_eq es (max a (e.1 + 1))
    have h2 := foldl_max_eq es (max 0 (e.1 + 1))
    simp only [mtPages, List.foldl] at *
    omega

/-- Removing a commit key removes it. -/
theorem cfind_cremove_self (cs : List (Nat × List Nat)) (l : Nat) :
    cfind (cremove cs l) l = none := by
  induction cs with
  | nil => rfl
  | cons e es ih =>
    by_cases hc : e.1 = l
    · rw [show cremove (e :: es) l = cremove es l from by
        simp [cremove, List.filter, hc]]
      exact ih
    · rw [show cremove (e :: es) l = e :: cremove es l from by
        simp [cremove, List.filter, hc]]
      rw [show cfind (e :: cremove es l) l = cfind (cremove es l) l from by
        simp [cfind, List.find?_cons, hc]]
      exact ih

/-- Removing one commit key leaves lookups at other keys unchanged. -/
theorem cfind_cremove_ne (cs : List (Nat × List Nat)) (l l' : Nat)
    (h : l ≠ l') : cfind (cremove cs l') l = cfind cs l := by
  induction cs with
  | nil => rfl
  | cons e es ih =>
    by_cases hc : e.1 = l'
    · have hne : ¬(e.1 = l) := by omega
      rw [show cremove (e :: es) l' = cremove es l' from by
        simp [cremove, List.filter, hc]]
      rw [ih]
      rw [show cfind (e :: es) l = cfind es l from by
        simp [cfind, List.find?_cons, hne]]
    · rw [show cremove (e :: es) l' = e :: cremove es l' from by
        simp [cremove, List.filter, hc]]
      by_cases hl : e.1 = l
      · simp [cfind, List.find?_cons, hl]
      · rw [show cfind (e :: cremove es l') l = cfind (cremove es l') l from by
          simp [cfind, List.find?_cons, hl]]
        rw [show cfind (e :: es) l = cfind es l from by
          simp [cfind, List.find?_cons, hl]]
        exact ih

/-- An absent commit key stays absent under removals. -/
theorem cfind_cremove_none (cs : List (Nat × List Nat)) (l l' : Nat)
    (h : cfind cs l = none) : cfind (cremove cs l') l = none := by
  by_cases hc : l = l'
  · subst hc; exact cfind_cremove_self cs l
  · rw [cfind_cremove_ne cs l l' hc]; exact h

/-- An absent commit key stays absent under a batch of removals. -/
theorem cfind_foldl_cremove_none (L : List Nat) :
    ∀ (cs : List (Nat × List Nat)) (l : Nat), cfind cs l = none →
      cfind (L.foldl cremove cs) l = none := by
  induction L with
  | nil => intro cs l h; exact h
  | cons a as ih =>
    intro cs l h
    exact ih (cremove cs a) l (cfind_cremove_none cs l a h)

/-- Removing every key of `L` removes each element of `L`. -/
theorem cfind_foldl_cremove_mem (L : List Nat) :
    ∀ (cs : List (Nat × List Nat)) (l : Nat), l ∈ L →
      cfind (L.foldl cremove cs) l = none := by
  induction L with
  | nil => intro _ _ h; cases h
  | cons a as ih =>
    intro cs l hl
    rcases List.mem_cons.mp hl with rfl | hmem
    · by_cases hm : l ∈ as
      · exact ih _ l hm
      · exact cfind_foldl_cremove_none as (cremove cs l) l (cfind_cremove_self cs l)
    · exact ih _ l hmem

/-- Batch removal leaves keys outside `L` unchanged. -/
theorem cfind_foldl_cremove_not_mem (L : List Nat) :
    ∀ (cs : List (Nat × List Nat)) (l : Nat), l ∉ L →
      cfind (L.foldl cremove cs) l = cfind cs l := by
  induction L with
  | nil => intro _ _ _; rfl
  | cons a as ih =>
    intro cs l hl
    have hne : l ≠ a := fun he => hl (he ▸ List.mem_cons_self a as)
    simp only [List.foldl]
    rw [ih (cremove cs a) l (fun hm => hl (List.mem_cons_of_mem a hm))]
    exact cfind_cremove_ne cs l a hne

/-- Membership in the inclusive LSN range. -/
theorem mem_lsnRange (lo hi l : Nat) : l ∈ lsnRange lo hi ↔ lo ≤ l ∧ l ≤ hi := by
  simp only [lsnRange, List.mem_map, List.mem_range]
  constructor
  · rintro ⟨a, ha, rfl⟩; omega
  · rintro ⟨h1, h2⟩; exact ⟨l - lo, by omega, by omega⟩

end Lemmas

/-- Claim C1 counterexample: on a store with no page key at all for
(offset 0, any LSN ≤ 3), `read` returns `(3, Pending)` and not the
`(3, Empty)` the claim demands — the source's not-found arm is
`Ok((lsn, PageValue::Pending))`. -/
theorem read_empty_store_cex :
    (∀ l, l ≤ 3 → 1 ≤ l → pget Storage.init 0 l = none) ∧
    read Storage.init 3 0 = (3, PageValue.pending) ∧
    read Storage.init 3 0 ≠ (3, PageValue.empty) :=
  ⟨fun _ _ _ => rfl, rfl, by decide⟩

/-- Claim C1, amended: when no page key `(vid, o, lsn)` with `1 ≤ lsn ≤ L`
exists in the pages partition, `read(vid, L, o)` returns
`(L, Pending)` — the sentinel the source produces on the not-found path. -/
theorem read_not_found_pending (st : Storage) (L o : Nat)
    (h : ∀ l, l ≤ L → 1 ≤ l → pget st o l = none) :
    read st L o = (L, PageValue.pending) := by
  unfold read
  rw [readLoop_eq_none st o L h]
  rfl

/-- Witness for `read_not_found_pending` at a volume holding a page only at
offset 1. -/
theorem read_not_found_pending_witness :
    (∀ l, l ≤ 3 → 1 ≤ l → pget stOther 0 l = none) ∧
    read stOther 3 0 = (3, PageValue.pending) :=
  ⟨by decide, read_not_found_pending stOther 3 0 (by decide)⟩

/-- Claim C9: when at least one page key below the target exists, `read`
returns the greatest LSN `lstar ≤ L` holding a page at this offset
together with the stored value (the `Pending` marker reads back as
`Pending`, a stored page as `Available`); pages stored above `L` are
never consulted. -/
theorem read_latest_at_or_below (st : Storage) (L o lstar : Nat)
    (v : PageValue) (h1 : 1 ≤ lstar) (h2 : lstar ≤ L)
    (h3 : pget st o lstar = some v)
    (h4 : ∀ l, l ≤ L → lstar < l → pget st o l = none) :
    read st L o = (lstar, v) := by
  unfold read
  rw [readLoop_eq_some st o lstar v h1 L h2 h3 h4]
  rfl

/-- Witness for `read_latest_at_or_below`: the pending marker at LSN 2
shadows the page at LSN 1 even when the target LSN is 5. -/
theorem read_latest_at_or_below_witness :
    (1 ≤ 2 ∧ 2 ≤ 5 ∧ pget stPair 0 2 = some PageValue.pending ∧
      (∀ l, l ≤ 5 → 2 < l → pget stPair 0 l = none)) ∧
    read stPair 5 0 = (2, PageValue.pending) :=
  ⟨⟨by decide, by decide, by decide, by decide⟩,
    read_latest_at_or_below stPair 5 0 2 PageValue.pending (by decide)
      (by decide) (by decide) (by decide)⟩

/-- Claim C10: a volume with no persisted Status row (including one never
registered at all) reads back status `Ok` — the default. -/
theorem get_volume_status_defaults_ok (st : Storage) (h : st.status = none) :
    getVolumeStatus st = VolumeStatus.ok := by
  unfold getVolumeStatus
  rw [h]
  rfl

/-- Witness for `get_volume_status_defaults_ok` on the fresh store. -/
theorem get_volume_status_defaults_ok_witness :
    Storage.init.status = none ∧ getVolumeStatus Storage.init = VolumeStatus.ok :=
  ⟨rfl, get_volume_status_defaults_ok Storage.init rfl⟩

/-- Claim C2 (code bug): on a volume with `last_sync < local_lsn`
(scenario S5: two unsynced local commits), `reset_volume_to_remote` builds
its reset batch but never commits it, so the commits above `last_sync`
survive, and the subsequent `receive_remote_commit_holding_lock` still
sees pending commits: it persists `status = Conflict` and fails with
`RemoteConflict` — the opposite of the claimed (and documented) success,
commit removal and status clearing. -/
theorem reset_volume_batch_never_committed :
    optLT (wgetD stDiverged).lastSync
      (stDiverged.snapshot.map (fun s => s.localLsn)) = true ∧
    (resetVolumeToRemote stDiverged ⟨7, 1⟩ [0]).1 =
      Except.error RErr.remoteConflict ∧
    (resetVolumeToRemote stDiverged ⟨7, 1⟩ [0]).2 =
      { stDiverged with status := some VolumeStatus.conflict } ∧
    cget (resetVolumeToRemote stDiverged ⟨7, 1⟩ [0]).2 2 = some [0, 1] ∧
    getVolumeStatus (resetVolumeToRemote stDiverged ⟨7, 1⟩ [0]).2 =
      VolumeStatus.conflict ∧
    (resetVolumeToRemote stDiverged ⟨7, 1⟩ [0]).2.snapshot = some ⟨2, none, 2⟩ :=
  ⟨rfl, rfl, by decide, by decide, rfl, rfl⟩

/-- Claim C6 counterexample: the claim omits the source's
`assert!(snapshot.remote() < Some(remote_lsn))`. With the volume already
at remote LSN 5 and `pending_sync = Some 2 = sync_start.local_lsn`,
completing a sync against remote LSN 5 aborts instead of moving
`pending_sync` into `last_sync`. -/
theorem complete_sync_nonmonotonic_cex :
    stSyncCex.snapshot = some ⟨2, some 5, 1⟩ ∧
    (wgetD stSyncCex).pendingSync = some ((⟨2, none, 1⟩ : Snapshot).localLsn) ∧
    (completeSyncToRemote stSyncCex ⟨2, none, 1⟩ ⟨5, 1⟩ 1 2).1 =
      Except.error RErr.assertFailed ∧
    (completeSyncToRemote stSyncCex ⟨2, none, 1⟩ ⟨5, 1⟩ 1 2).2.watermarks ≠
      some ⟨some 2, none⟩ ∧
    (completeSyncToRemote stSyncCex ⟨2, none, 1⟩ ⟨5, 1⟩ 1 2).2 = stSyncCex :=
  ⟨rfl, rfl, rfl, by decide, rfl⟩

/-- Claim C6, amended with the remote-monotonicity precondition the source
asserts: for a volume with a snapshot, with the new remote LSN strictly
above the current one and `pending_sync` equal to the sync-start local
LSN, `complete_sync_to_remote` succeeds and atomically rewrites only the
snapshot's remote LSN, moves `pending_sync` into `last_sync`, removes
every commit key in the synced range and leaves all other commit keys and
the pages partition unchanged. -/
theorem complete_sync_spec (st : Storage) (snap syncStart : Snapshot)
    (remote : RemoteSnapshot) (lo hi : Nat)
    (hsnap : st.snapshot = some snap)
    (hmono : optLT snap.remoteLsn (some remote.lsn) = true)
    (hpend : (wgetD st).pendingSync = some syncStart.localLsn) :
    (completeSyncToRemote st syncStart remote lo hi).1 = Except.ok () ∧
    (completeSyncToRemote st syncStart remote lo hi).2.snapshot =
      some ⟨snap.localLsn, some remote.lsn, snap.pages⟩ ∧
    (completeSyncToRemote st syncStart remote lo hi).2.watermarks =
      some ⟨(wgetD st).pendingSync, none⟩ ∧
    (completeSyncToRemote st syncStart remote lo hi).2.pages = st.pages ∧
    (∀ l, lo ≤ l → l ≤ hi →
      cget (completeSyncToRemote st syncStart remote lo hi).2 l = none) ∧
    (∀ l, l ∉ lsnRange lo hi →
      cget (completeSyncToRemote st syncStart remote lo hi).2 l = cget st l) := by
  have hred : completeSyncToRemote st syncStart remote lo hi =
      (Except.ok (), { st with
        snapshot := some ⟨snap.localLsn, some remote.lsn, snap.pages⟩
        watermarks := some ((wgetD st).commitPendingSync)
        commits := (lsnRange lo hi).foldl cremove st.commits }) := by
    unfold completeSyncToRemote
    rw [hsnap]
    simp [hmono, hpend]
  rw [hred]
  refine ⟨rfl, rfl, rfl, rfl, ?_, ?_⟩
  · intro l hl1 hl2
    exact cfind_foldl_cremove_mem _ _ _ ((mem_lsnRange lo hi l).mpr ⟨hl1, hl2⟩)
  · intro l hl
    exact cfind_foldl_cremove_not_mem _ _ _ hl

/-- Witness for `complete_sync_spec`: completing the S3-style push of local
LSNs 1..=2 against remote LSN 5. -/
theorem complete_sync_spec_witness :
    (stSyncOk.snapshot = some ⟨2, some 4, 2⟩ ∧
      optLT (some 4) (some 5) = true ∧
      (wgetD stSyncOk).pendingSync = some 2) ∧
    (completeSyncToRemote stSyncOk ⟨2, none, 2⟩ ⟨5, 2⟩ 1 2).1 = Except.ok () ∧
    (completeSyncToRemote stSyncOk ⟨2, none, 2⟩ ⟨5, 2⟩ 1 2).2.snapshot =
      some ⟨2, some 5, 2⟩ ∧
    (completeSyncToRemote stSyncOk ⟨2, none, 2⟩ ⟨5, 2⟩ 1 2).2.watermarks =
      some ⟨some 2, none⟩ ∧
    cget (completeSyncToRemote stSyncOk ⟨2, none, 2⟩ ⟨5, 2⟩ 1 2).2 2 = none ∧
    cget (completeSyncToRemote stSyncOk ⟨2, none, 2⟩ ⟨5, 2⟩ 1 2).2 1 = none := by
  have h := complete_sync_spec stSyncOk ⟨2, some 4, 2⟩ ⟨2, none, 2⟩ ⟨5, 2⟩ 1 2
    rfl rfl rfl
  refine ⟨⟨rfl, rfl, rfl⟩, h.1, h.2.1, ?_, ?_, ?_⟩
  · rw [h.2.2.1]; rfl
  · exact h.2.2.2.2.1 2 (by decide) (by decide)
  · exact h.2.2.2.2.1 1 (by decide) (by decide)

/-- Reduction of `commit` on the optimistic-concurrency failure path: the
batch is dropped, nothing is written, nothing is published. -/
theorem commit_eq_error (st : Storage) (snap : Option Snapshot) (mt : Memtable)
    (h : st.snapshot.map (fun s => s.localLsn) ≠ snap.map (fun s => s.localLsn)) :
    commit st snap mt = (Except.error RErr.concurrentWrite, st) := by
  unfold commit
  simp [h]

/-- Reduction of `commit` on the success path: the whole batch is applied
and the local change set is notified. -/
theorem commit_eq_ok (st : Storage) (snap : Option Snapshot) (mt : Memtable)
    (h : st.snapshot.map (fun s => s.localLsn) = snap.map (fun s => s.localLsn)) :
    commit st snap mt =
      (Except.ok ⟨((snap.map (fun s => s.localLsn)).map (· + 1)).getD 1,
          snap.bind (fun s => s.remoteLsn),
          mt.foldl (fun acc e => max acc (e.1 + 1))
            ((snap.map (fun s => s.pages)).getD 0)⟩,
        { st with
          pages := pinsEntries (((snap.map (fun s => s.localLsn)).map (· + 1)).getD 1)
            (fun e => (e.1, PageValue.available e.2)) mt st.pages
          snapshot := some ⟨((snap.map (fun s => s.localLsn)).map (· + 1)).getD 1,
            snap.bind (fun s => s.remoteLsn),
            mt.foldl (fun acc e => max acc (e.1 + 1))
              ((snap.map (fun s => s.pages)).getD 0)⟩
          commits := (((snap.map (fun s => s.localLsn)).map (· + 1)).getD 1,
            mt.map Prod.fst) :: st.commits
          localNotifies := st.localNotifies + 1 }) := by
  unfold commit
  simp [h]

/-- Claim C3: `commit` fails with `ConcurrentWrite` exactly when the latest
stored snapshot's local LSN differs from the read snapshot's (including
when exactly one of the two is absent); on that failure the state —
every partition and both notification channels — is untouched. Two
commits built on the same read snapshot cannot both succeed: after the
first lands, the second fails with `ConcurrentWrite` and changes
nothing. -/
theorem commit_concurrent_write_iff (st : Storage) (snap : Option Snapshot)
    (mt : Memtable) :
    ((commit st snap mt).1 = Except.error RErr.concurrentWrite ↔
      st.snapshot.map (fun s => s.localLsn) ≠ snap.map (fun s => s.localLsn)) ∧
    (st.snapshot.map (fun s => s.localLsn) ≠ snap.map (fun s => s.localLsn) →
      (commit st snap mt).2 = st) ∧
    (∀ mt' : Memtable,
      st.snapshot.map (fun s => s.localLsn) = snap.map (fun s => s.localLsn) →
      (∃ s', (commit st snap mt).1 = Except.ok s') ∧
      (commit (commit st snap mt).2 snap mt').1 =
        Except.error RErr.concurrentWrite ∧
      (commit (commit st snap mt).2 snap mt').2 = (commit st snap mt).2) := by
  refine ⟨?_, ?_, ?_⟩
  · by_cases hc : st.snapshot.map (fun s => s.localLsn) = snap.map (fun s => s.localLsn)
    · rw [commit_eq_ok st snap mt hc]
      simp [hc]
    · rw [commit_eq_error st snap mt hc]
      simp [hc]
  · intro h
    rw [commit_eq_error st snap mt h]
  · intro mt' hc
    rw [commit_eq_ok st snap mt hc]
    have hne : (some (((snap.map (fun s => s.localLsn)).map (· + 1)).getD 1) :
        Option Nat) ≠ snap.map (fun s => s.localLsn) := by
      cases snap with
      | none => simp
      | some s => simp
    refine ⟨⟨_, rfl⟩, ?_, ?_⟩
    · rw [commit_eq_error _ snap mt' (by simpa using hne)]
    · rw [commit_eq_error _ snap mt' (by simpa using hne)]

/-- Witness for `commit_concurrent_write_iff`: from the same empty read
snapshot, the first commit wins and the second fails. -/
theorem commit_concurrent_write_iff_witness :
    Storage.init.snapshot.map (fun s => s.localLsn) =
      (none : Option Snapshot).map (fun s => s.localLsn) ∧
    (∃ s', (commit Storage.init none [(0, 7)]).1 = Except.ok s') ∧
    (commit (commit Storage.init none [(0, 7)]).2 none [(1, 9)]).1 =
      Except.error RErr.concurrentWrite ∧
    (commit (commit Storage.init none [(0, 7)]).2 none [(1, 9)]).2 =
      (commit Storage.init none [(0, 7)]).2 :=
  ⟨rfl, (commit_concurrent_write_iff Storage.init none [(0, 7)]).2.2 [(1, 9)] rfl⟩

/-- Claim C7: a successful commit — empty memtable included — returns and
persists the snapshot with local LSN advanced by one (1 from no prior
snapshot), the remote LSN carried unchanged, and the page count the
maximum of the previous count and the largest memtable offset plus one;
it writes each memtable page at `(offset, commit_lsn)` as `Available`
and writes a commit record at `commit_lsn` listing exactly the memtable
offsets. -/
theorem commit_success_spec (st : Storage) (snap : Option Snapshot)
    (mt : Memtable)
    (hok : st.snapshot.map (fun s => s.localLsn) = snap.map (fun s => s.localLsn))
    (hnd : (mt.map Prod.fst).Nodup) :
    (commit st snap mt).1 =
      Except.ok ⟨((snap.map (fun s => s.localLsn)).map (· + 1)).getD 1,
        snap.bind (fun s => s.remoteLsn),
        max ((snap.map (fun s => s.pages)).getD 0) (mtPages mt)⟩ ∧
    (commit st snap mt).2.snapshot =
      some ⟨((snap.map (fun s => s.localLsn)).map (· + 1)).getD 1,
        snap.bind (fun s => s.remoteLsn),
        max ((snap.map (fun s => s.pages)).getD 0) (mtPages mt)⟩ ∧
    (∀ o p, (o, p) ∈ mt →
      pget (commit st snap mt).2 o
        (((snap.map (fun s => s.localLsn)).map (· + 1)).getD 1) =
        some (PageValue.available p)) ∧
    cget (commit st snap mt).2
        (((snap.map (fun s => s.localLsn)).map (· + 1)).getD 1) =
      some (mt.map Prod.fst) := by
  rw [commit_eq_ok st snap mt hok]
  refine ⟨?_, ?_, ?_, ?_⟩
  · rw [foldl_max_eq]
  · rw [foldl_max_eq]
  · intro o p hmem
    exact pfind_pinsEntries_mem_nodup _ _ mt st.pages hnd (o, p) hmem
  · simp [cget, cfind, List.find?_cons]

/-- Witness for `commit_success_spec`: an empty memtable still advances the
local LSN and records an empty commit bitmap. -/
theorem commit_success_spec_witness :
    (stPending.snapshot.map (fun s => s.localLsn) =
      (some ⟨1, none, 1⟩ : Option Snapshot).map (fun s => s.localLsn) ∧
      (([] : Memtable).map Prod.fst).Nodup) ∧
    (commit stPending (some ⟨1, none, 1⟩) []).1 = Except.ok ⟨2, none, 1⟩ ∧
    (commit stPending (some ⟨1, none, 1⟩) []).2.snapshot = some ⟨2, none, 1⟩ ∧
    cget (commit stPending (some ⟨1, none, 1⟩) []).2 2 = some [] := by
  have h := commit_success_spec stPending (some ⟨1, none, 1⟩) [] rfl (by simp)
  refine ⟨⟨rfl, by simp⟩, ?_, ?_, ?_⟩
  · rw [h.1]; simp [mtPages]
  · rw [h.2.1]; simp [mtPages]
  · exact h.2.2.2

/-- Claim C4: on a volume that neither needs recovery nor has pending
commits, `receive_remote_commit` succeeds and atomically writes the
snapshot at the next local LSN carrying the remote LSN and page count,
fast-forwards both watermarks to that LSN (so a later push preparation
finds no pending commits), and inserts a `Pending` page at every changed
offset at that LSN. -/
theorem receive_remote_commit_spec (st : Storage) (remote : RemoteSnapshot)
    (changed : List Nat)
    (h1 : needsRecovery st = false) (h2 : hasPendingCommits st = false) :
    (receiveRemoteCommit st remote changed).1 = Except.ok () ∧
    (receiveRemoteCommit st remote changed).2.snapshot =
      some ⟨(st.snapshot.map (fun s => s.localLsn + 1)).getD 1, some remote.lsn,
        remote.pages⟩ ∧
    (receiveRemoteCommit st remote changed).2.watermarks =
      some ⟨some ((st.snapshot.map (fun s => s.localLsn + 1)).getD 1),
        some ((st.snapshot.map (fun s => s.localLsn + 1)).getD 1)⟩ ∧
    (∀ o, o ∈ changed →
      pget (receiveRemoteCommit st remote changed).2 o
        ((st.snapshot.map (fun s => s.localLsn + 1)).getD 1) =
        some PageValue.pending) ∧
    hasPendingCommits (receiveRemoteCommit st remote changed).2 = false := by
  have hred : receiveRemoteCommit st remote changed =
      (Except.ok (), { st with
        snapshot := some ⟨(st.snapshot.map (fun s => s.localLsn + 1)).getD 1,
          some remote.lsn, remote.pages⟩
        watermarks := some
          (((wgetD st).withLastSync
              ((st.snapshot.map (fun s => s.localLsn + 1)).getD 1)).withPendingSync
            ((st.snapshot.map (fun s => s.localLsn + 1)).getD 1))
        pages := pinsEntries ((st.snapshot.map (fun s => s.localLsn + 1)).getD 1)
          (fun o => (o, PageValue.pending)) changed st.pages
        remoteNotifies := st.remoteNotifies + 1 }) := by
    unfold receiveRemoteCommit receiveRemoteHL
    simp [h1, h2]
  rw [hred]
  refine ⟨rfl, rfl, rfl, ?_, ?_⟩
  · intro o ho
    exact pfind_pinsEntries_mem_const _ _ changed st.pages PageValue.pending
      (fun _ _ => rfl) o ⟨o, ho, rfl⟩
  · simp [hasPendingCommits, wgetD, Watermarks.withLastSync,
      Watermarks.withPendingSync, optLT]

/-- Witness for `receive_remote_commit_spec`: pulling remote LSN 7 into a
fresh volume yields local LSN 1 with both watermarks at 1 and a pending
page at offset 0. -/
theorem receive_remote_commit_spec_witness :
    (needsRecovery Storage.init = false ∧
      hasPendingCommits Storage.init = false) ∧
    (receiveRemoteCommit Storage.init ⟨7, 1⟩ [0]).1 = Except.ok () ∧
    (receiveRemoteCommit Storage.init ⟨7, 1⟩ [0]).2.snapshot =
      some ⟨1, some 7, 1⟩ ∧
    (receiveRemoteCommit Storage.init ⟨7, 1⟩ [0]).2.watermarks =
      some ⟨some 1, some 1⟩ ∧
    pget (receiveRemoteCommit Storage.init ⟨7, 1⟩ [0]).2 0 1 =
      some PageValue.pending ∧
    hasPendingCommits (receiveRemoteCommit Storage.init ⟨7, 1⟩ [0]).2 = false := by
  have h := receive_remote_commit_spec Storage.init ⟨7, 1⟩ [0] rfl rfl
  refine ⟨⟨rfl, rfl⟩, h.1, ?_, ?_, ?_, h.2.2.2.2⟩
  · rw [h.2.1]; simp [Storage.init]
  · rw [h.2.2.1]; simp [Storage.init]
  · exact h.2.2.2.1 0 (List.mem_cons_self 0 [])

/-- Claim C5: on a volume with pending local commits that does not need
recovery, `receive_remote_commit` persists `status = Conflict` and fails
with `RemoteConflict`, leaving the snapshot, watermarks, pages and
commits partitions untouched. -/
theorem receive_remote_commit_conflict_spec (st : Storage)
    (remote : RemoteSnapshot) (changed : List Nat)
    (h1 : needsRecovery st = false) (h2 : hasPendingCommits st = true) :
    (receiveRemoteCommit st remote changed).1 =
      Except.error RErr.remoteConflict ∧
    (receiveRemoteCommit st remote changed).2 =
      { st with status := some VolumeStatus.conflict } ∧
    getVolumeStatus (receiveRemoteCommit st remote changed).2 =
      VolumeStatus.conflict := by
  have hred : receiveRemoteCommit st remote changed =
      (Except.error RErr.remoteConflict,
        { st with status := some VolumeStatus.conflict }) := by
    unfold receiveRemoteCommit receiveRemoteHL
    simp [h1, h2]
  rw [hred]
  exact ⟨rfl, rfl, rfl⟩

/-- Witness for `receive_remote_commit_conflict_spec` on a volume with one
unsynced local commit. -/
theorem receive_remote_commit_conflict_spec_witness :
    (needsRecovery stPending = false ∧ hasPendingCommits stPending = true) ∧
    (receiveRemoteCommit stPending ⟨7, 1⟩ [0]).1 =
      Except.error RErr.remoteConflict ∧
    (receiveRemoteCommit stPending ⟨7, 1⟩ [0]).2 =
      { stPending with status := some VolumeStatus.conflict } ∧
    getVolumeStatus (receiveRemoteCommit stPending ⟨7, 1⟩ [0]).2 =
      VolumeStatus.conflict := by
  have h := receive_remote_commit_conflict_spec stPending ⟨7, 1⟩ [0] rfl rfl
  exact ⟨⟨rfl, rfl⟩, h⟩

theorem leOpt_none_left (x : Option Nat) : leOpt none x = true := by
  cases x <;> rfl

theorem leOpt_none_right (x : Option Nat) : leOpt x none = true := by
  cases x <;> rfl

theorem leOpt_some_some (a b : Nat) : leOpt (some a) (some b) = decide (a ≤ b) :=
  rfl

/-- Unpack the strengthened watermark invariant into usable inequalities. -/
theorem wmOK_destruct (st : Storage) (h : wmOK st = true) :
    (∀ a b, (wgetD st).lastSync = some a → (wgetD st).pendingSync = some b →
      a ≤ b) ∧
    (∀ b s, (wgetD st).pendingSync = some b → st.snapshot = some s →
      b ≤ s.localLsn) ∧
    (∀ a s, (wgetD st).lastSync = some a → st.snapshot = some s →
      a ≤ s.localLsn) ∧
    (st.snapshot = none →
      (wgetD st).lastSync = none ∧ (wgetD st).pendingSync = none) := by
  simp only [wmOK, wmChain, Bool.and_eq_true] at h
  obtain ⟨⟨⟨h1, h2⟩, h3⟩, h4⟩ := h
  refine ⟨?_, ?_, ?_, ?_⟩
  · intro a b ha hb
    rw [ha, hb, leOpt_some_some] at h1
    simpa using h1
  · intro b s hb hs
    rw [hb, hs] at h2
    simp only [Option.map_some', leOpt_some_some] at h2
    simpa using h2
  · intro a s ha hs
    rw [ha, hs] at h3
    simp only [Option.map_some', leOpt_some_some] at h3
    simpa using h3
  · intro hs
    rw [hs] at h4
    constructor
    · cases hL : (wgetD st).lastSync with
      | none => rfl
      | some a => rw [hL] at h4; simp at h4
    · cases hP : (wgetD st).pendingSync with
      | none => rfl
      | some b => rw [hP] at h4; simp at h4

/-- The remote-apply path preserves the watermark invariant: its error arms
leave the watermarks and snapshot untouched, and its success arm sets
`last_sync = pending_sync = local_lsn` with the snapshot at that LSN. -/
theorem wmOK_receiveRemoteHL (st : Storage) (r : RemoteSnapshot)
    (c : List Nat) (h : wmOK st = true) :
    wmOK (receiveRemoteHL st r c).2 = true := by
  unfold receiveRemoteHL
  by_cases h1 : needsRecovery st = true
  · simpa [h1] using h
  · simp only [Bool.not_eq_true] at h1
    by_cases h2 : hasPendingCommits st = true
    · simp only [h1, h2]
      simp only [Bool.false_eq_true, if_false, if_true]
      simpa [wmOK, wmChain, wgetD] using h
    · simp only [Bool.not_eq_true] at h2
      simp only [h1, h2]
      simp only [Bool.false_eq_true, if_false]
      simp [wmOK, wmChain, wgetD, Watermarks.withLastSync,
        Watermarks.withPendingSync, leOpt_some_some]

/-- `commit` preserves the watermark invariant: the failure arm changes
nothing, the success arm advances the local LSN. -/
theorem wmOK_commit_op (st : Storage) (snap : Option Snapshot) (mt : Memtable)
    (h : wmOK st = true) : wmOK (commit st snap mt).2 = true := by
  by_cases hc : st.snapshot.map (fun s => s.localLsn) = snap.map (fun s => s.localLsn)
  · rw [commit_eq_ok st snap mt hc]
    obtain ⟨d1, d2, d3, d4⟩ := wmOK_destruct st h
    cases hs : st.snapshot with
    | none =>
      obtain ⟨hL, hP⟩ := d4 hs
      simp [wmOK, wmChain, wgetD] at hL hP ⊢
      simp [hL, hP, leOpt_none_left]
    | some s =>
      have hcl : ((snap.map (fun s => s.localLsn)).map (· + 1)).getD 1 =
          s.localLsn + 1 := by
        rw [← hc, hs]
        rfl
      rw [hcl]
      simp only [wmOK, wmChain, Bool.and_eq_true, wgetD]
      refine ⟨⟨⟨?_, ?_⟩, ?_⟩, ?_⟩
      · have hb := h
        simp only [wmOK, wmChain, Bool.and_eq_true, wgetD] at hb
        exact hb.1.1.1
      · cases hP : (st.watermarks.getD ⟨none, none⟩).pendingSync with
        | none => exact leOpt_none_left _
        | some b =>
          have hb : b ≤ s.localLsn := d2 b s (by simpa [wgetD] using hP) hs
          simp only [Option.map_some', leOpt_some_some, decide_eq_true_eq]
          exact Nat.le_succ_of_le hb
      · cases hL : (st.watermarks.getD ⟨none, none⟩).lastSync with
        | none => exact leOpt_none_left _
        | some a =>
          have hb : a ≤ s.localLsn := d3 a s (by simpa [wgetD] using hL) hs
          simp only [Option.map_some', leOpt_some_some, decide_eq_true_eq]
          exact Nat.le_succ_of_le hb
      · simp
  · rw [commit_eq_error st snap mt hc]
    exact h

/-- `prepare_sync_to_remote` preserves the watermark invariant: it only
moves `pending_sync` up to the current local LSN. -/
theorem wmOK_prepareSync_op (st : Storage) (h : wmOK st = true) :
    wmOK (prepareSyncToRemote st).2 = true := by
  unfold prepareSyncToRemote
  by_cases h1 : needsRecovery st = true
  · simpa [h1] using h
  · simp only [Bool.not_eq_true] at h1
    simp only [h1, Bool.false_eq_true, if_false]
    cases hs : st.snapshot with
    | none => simpa using h
    | some snap =>
      obtain ⟨d1, d2, d3, d4⟩ := wmOK_destruct st h
      simp only [wmOK, wmChain, Bool.and_eq_true, wgetD, Option.getD_some,
        Watermarks.withPendingSync]
      refine ⟨⟨⟨?_, ?_⟩, ?_⟩, ?_⟩
      · cases hL : (st.watermarks.getD ⟨none, none⟩).lastSync with
        | none => exact leOpt_none_left _
        | some a =>
          have hb : a ≤ snap.localLsn := d3 a snap (by simpa [wgetD] using hL) hs
          simp only [leOpt_some_some]
          simpa using hb
      · simp only [hs, Option.map_some', leOpt_some_some]
        simp
      · cases hL : (st.watermarks.getD ⟨none, none⟩).lastSync with
        | none => exact leOpt_none_left _
        | some a =>
          have hb : a ≤ snap.localLsn := d3 a snap (by simpa [wgetD] using hL) hs
          simp only [hs, Option.map_some', leOpt_some_some]
          simpa using hb
      · simp [hs]

/-- `complete_sync_to_remote` preserves the watermark invariant: it moves
`pending_sync` (bounded by the local LSN) into `last_sync`. -/
theorem wmOK_completeSync_op (st : Storage) (syncStart : Snapshot)
    (r : RemoteSnapshot) (lo hi : Nat) (h : wmOK st = true) :
    wmOK (completeSyncToRemote st syncStart r lo hi).2 = true := by
  cases hs : st.snapshot with
  | none =>
    have hred : completeSyncToRemote st syncStart r lo hi =
        (Except.error RErr.assertFailed, st) := by
      unfold completeSyncToRemote
      rw [hs]
    rw [hred]
    exact h
  | some snap =>
    by_cases hm : optLT snap.remoteLsn (some r.lsn) = true
    · by_cases hp : (wgetD st).pendingSync = some syncStart.localLsn
      · have hred : completeSyncToRemote st syncStart r lo hi =
            (Except.ok (), { st with
              snapshot := some ⟨snap.localLsn, some r.lsn, snap.pages⟩
              watermarks := some ((wgetD st).commitPendingSync)
              commits := (lsnRange lo hi).foldl cremove st.commits }) := by
          unfold completeSyncToRemote
          rw [hs]
          simp [hm, hp]
        rw [hred]
        obtain ⟨d1, d2, d3, d4⟩ := wmOK_destruct st h
        simp only [wmOK, wmChain, Bool.and_eq_true, wgetD, Option.getD_some,
          Watermarks.commitPendingSync]
        refine ⟨⟨⟨?_, ?_⟩, ?_⟩, ?_⟩
        · exact leOpt_none_right _
        · exact leOpt_none_left _
        · cases hP : (st.watermarks.getD ⟨none, none⟩).pendingSync with
          | none => exact leOpt_none_left _
          | some b =>
            have hb : b ≤ snap.localLsn := d2 b snap (by simpa [wgetD] using hP) hs
            simp only [Option.map_some', leOpt_some_some, decide_eq_true_eq]
            exact hb
        · simp
      · have hred : completeSyncToRemote st syncStart r lo hi =
            (Except.error RErr.assertFailed, st) := by
          unfold completeSyncToRemote
          rw [hs]
          simp [hm, hp]
        rw [hred]
        exact h
    · simp only [Bool.not_eq_true] at hm
      have hred : completeSyncToRemote st syncStart r lo hi =
          (Except.error RErr.assertFailed, st) := by
        unfold completeSyncToRemote
        rw [hs]
        simp [hm]
      rw [hred]
      exact h

/-- `rollback_sync_to_remote` preserves the watermark invariant: it lowers
`pending_sync` back to `last_sync`. -/
theorem wmOK_rollbackSync_op (st : Storage) (b : Bool) (h : wmOK st = true) :
    wmOK (rollbackSyncToRemote st b) = true := by
  obtain ⟨d1, d2, d3, d4⟩ := wmOK_destruct st h
  have hgoal : wmOK { st with
      watermarks := some ((wgetD st).rollbackPendingSync) } = true := by
    simp only [wmOK, wmChain, Bool.and_eq_true, wgetD, Option.getD_some,
      Watermarks.rollbackPendingSync]
    refine ⟨⟨⟨?_, ?_⟩, ?_⟩, ?_⟩
    · cases hL : (st.watermarks.getD ⟨none, none⟩).lastSync with
      | none => exact leOpt_none_left _
      | some a => simp [leOpt_some_some]
    · cases hL : (st.watermarks.getD ⟨none, none⟩).lastSync with
      | none => exact leOpt_none_left _
      | some a =>
        cases hs : st.snapshot with
        | none =>
          have := (d4 hs).1
          rw [show (wgetD st).lastSync = (st.watermarks.getD ⟨none, none⟩).lastSync
            from rfl, hL] at this
          cases this
        | some s =>
          have hb : a ≤ s.localLsn := d3 a s (by simpa [wgetD] using hL) hs
          simp only [Option.map_some', leOpt_some_some]
          simpa using hb
    · cases hL : (st.watermarks.getD ⟨none, none⟩).lastSync with
      | none => exact leOpt_none_left _
      | some a =>
        cases hs : st.snapshot with
        | none =>
          have := (d4 hs).1
          rw [show (wgetD st).lastSync = (st.watermarks.getD ⟨none, none⟩).lastSync
            from rfl, hL] at this
          cases this
        | some s =>
          have hb : a ≤ s.localLsn := d3 a s (by simpa [wgetD] using hL) hs
          simp only [Option.map_some', leOpt_some_some]
          simpa using hb
    · cases hL : (st.watermarks.getD ⟨none, none⟩).lastSync with
      | none => simp [hL]
      | some a =>
        cases hs : st.snapshot with
        | none =>
          have := (d4 hs).1
          rw [show (wgetD st).lastSync = (st.watermarks.getD ⟨none, none⟩).lastSync
            from rfl, hL] at this
          cases this
        | some s => simp [hs]
  unfold rollbackSyncToRemote
  cases b with
  | false => simpa using hgoal
  | true =>
    simp only [if_true]
    simpa [wmOK, wmChain, wgetD] using hgoal

/-- `reset_volume_to_remote` preserves the watermark invariant: both its
abort arms change nothing and both its other arms delegate to the
remote-apply path on the unchanged state (the reset batch is dropped). -/
theorem wmOK_reset_op (st : Storage) (r : RemoteSnapshot) (c : List Nat)
    (h : wmOK st = true) : wmOK (resetVolumeToRemote st r c).2 = true := by
  unfold resetVolumeToRemote
  by_cases h1 : (wgetD st).lastSync = st.snapshot.map (fun s => s.localLsn)
  · simp only [h1, if_pos rfl]
    exact wmOK_receiveRemoteHL _ r c h
  · simp only [if_neg h1]
    by_cases h2 : optLT (wgetD st).lastSync (st.snapshot.map (fun s => s.localLsn)) = true
    · simp only [h2, Bool.not_true, Bool.false_eq_true, if_false]
      by_cases h3 : st.commits.any (fun e => !(optLT (wgetD st).lastSync (some e.1))) = true
      · simp only [h3, if_true]
        exact h
      · simp only [Bool.not_eq_true] at h3
        simp only [h3, Bool.false_eq_true, if_false]
        exact wmOK_receiveRemoteHL _ r c h
    · simp only [Bool.not_eq_true] at h2
      simp only [h2]
      simpa using h

/-- Every modelled operation preserves the strengthened invariant. -/
theorem wmOK_applyOp (st : Storage) (op : Op) (h : wmOK st = true) :
    wmOK (applyOp st op) = true := by
  cases op with
  | commitOp snap mt => exact wmOK_commit_op st snap mt h
  | receiveRemoteOp r c => exact wmOK_receiveRemoteHL st r c h
  | prepareSyncOp => exact wmOK_prepareSync_op st h
  | completeSyncOp s r lo hi => exact wmOK_completeSync_op st s r lo hi h
  | rollbackSyncOp b => exact wmOK_rollbackSync_op st b h
  | resetOp r c => exact wmOK_reset_op st r c h

/-- Claim C8: over any sequence of the six read-then-write operations
(local commit, remote apply, sync prepare/complete/rollback, reset)
starting from a fresh volume, the watermark chain
`last_sync ≤ pending_sync ≤ snapshot.local_lsn` holds in every reachable
state, each inequality applying where the optional values are present. -/
theorem watermark_chain_invariant (ops : List Op) :
    wmChain (run Storage.init ops) = true := by
  have hok : ∀ (l : List Op) (st : Storage), wmOK st = true →
      wmOK (run st l) = true := by
    intro l
    induction l with
    | nil => intro st h; exact h
    | cons op l ih => intro st h; exact ih _ (wmOK_applyOp st op h)
  have h := hok ops Storage.init rfl
  simp only [wmOK, Bool.and_eq_true] at h
  exact h.1

end Graft
